import Mathlib

/-!
Shallow embedding of the WifePen wireless-audit orchestrator
(`src/airapi.py`, `src/main.py`) and proofs about its specified behavior.

Python strings are modeled as `List Char`; Python `sub in s` and
`s.split(sep)` (single-character separators, the only ones the program
uses) are modeled by `pyIn` and `pySplit` below.  Wall-clock instants are
modeled as natural numbers of milliseconds; `int(time.time())` is
millisecond count divided by 1000.  External processes are modeled by
oracles describing what the program observes of them (exit classification,
emitted output, elapsed time), since only those observations drive the
program's control flow.
-/

namespace WifePen

/-- Model of Python `sub in s` (substring containment) on strings as
character lists: true iff `sub` is a prefix of some suffix of `s`. -/
def pyIn (sub : List Char) : List Char → Bool
  | [] => sub.isEmpty
  | c :: rest => sub.isPrefixOf (c :: rest) || pyIn sub rest

/-- Model of Python `s.split(sep)` for a one-character separator:
splits at every occurrence of `sep`, keeping empty pieces, and always
returns at least one piece. -/
def pySplit (sep : Char) : List Char → List (List Char)
  | [] => [[]]
  | c :: rest =>
    if c = sep then [] :: pySplit sep rest
    else
      match pySplit sep rest with
      | [] => [[c]]
      | p :: ps => (c :: p) :: ps

/-- The found-key marker scanned for in aircrack-ng output
(`airapi.py` lines 320 and 387). -/
def keyMarker : List Char := "KEY FOUND!".toList

/-- The definitive not-found marker (`airapi.py` line 325). -/
def pndMarker : List Char := "Passphrase not in dictionary".toList

/-- First invalid-capture marker (`airapi.py` line 328). -/
def invMarkerA : List Char := "No networks found".toList

/-- Second invalid-capture marker (`airapi.py` line 328). -/
def invMarkerB : List Char := "ap_cur != NULL".toList

/-- The handshake-found marker in airodump-ng diagnostics
(`airapi.py` line 211). -/
def wpaMarker : List Char := "WPA handshake".toList

/-- Errors the passphrase-recovery code can raise while analysing tool
output.  Both are re-raised wrapped in a `RuntimeError` by the outer
handler of `parse_password`; the constructor records the cause. -/
inductive CrackError
  | invalidCapture
  | indexError
deriving DecidableEq

/-- Model of `line.split("[")[1].split("]")[0]` (`airapi.py` line 323):
the text between the first `[` of the line and the first `]` after it.
`none` models the `IndexError` Python raises when the line has no `[`. -/
def keyFromLine (line : List Char) : Option (List Char) :=
  match pySplit '[' line with
  | _ :: second :: _ => some ((pySplit ']' second).headD second)
  | _ => none

/-- Model of the `KEY FOUND!` branch shared by `parse_password` (lines
320-323) and `brute_force_password` (lines 387-390): when the combined
output contains the marker, extract the key from the first line that
contains it; `none` means the branch fell through. -/
def keyResult (output : List Char) : Option (Except CrackError (List Char)) :=
  if pyIn keyMarker output then
    match (pySplit '\n' output).find? (fun l => pyIn keyMarker l) with
    | some line =>
      match keyFromLine line with
      | some k => some (Except.ok k)
      | none => some (Except.error CrackError.indexError)
    | none => none
  else none

/-- Model of the output analysis of `API.parse_password`
(`airapi.py` lines 318-331): key branch first, then definitive
not-found, then the invalid-capture markers, else the empty result. -/
def analyzeDictOutput (output : List Char) : Except CrackError (List Char) :=
  match keyResult output with
  | some r => r
  | none =>
    if pyIn pndMarker output then Except.ok []
    else if pyIn invMarkerA output || pyIn invMarkerB output then
      Except.error CrackError.invalidCapture
    else Except.ok []

/-- Model of `API.parse_password` after the cracking tool ran: `timedOut`
models `subprocess.TimeoutExpired` (caught, line 333-335, yielding the
empty result), otherwise the combined stdout+stderr text is analysed. -/
def parse_password (timedOut : Bool) (output : List Char) :
    Except CrackError (List Char) :=
  if timedOut then Except.ok [] else analyzeDictOutput output

/-- Model of the output analysis of `API.brute_force_password`
(`airapi.py` lines 385-392): only the key branch exists; every other
output yields the empty result. -/
def analyzeBruteOutput (output : List Char) : Except CrackError (List Char) :=
  match keyResult output with
  | some r => r
  | none => Except.ok []

/-- Model of `API.brute_force_password` after the cracking tool ran
(timeout handling at lines 394-396 mirrors the dictionary mode). -/
def brute_force_password (timedOut : Bool) (output : List Char) :
    Except CrackError (List Char) :=
  if timedOut then Except.ok [] else analyzeBruteOutput output

/-- Classification of one `aireplay-ng` invocation inside
`API.deauth_clients` (`airapi.py` lines 252-273), matching the `except`
arms: normal exit, `CalledProcessError`, `TimeoutExpired`,
`FileNotFoundError`, other exception. -/
inductive RunOutcome
  | ok
  | nonzeroExit
  | timedOut
  | toolMissing
  | otherError
deriving DecidableEq

/-- Observable events of the deauthentication loop: one injector
invocation per client, and the `time.sleep(interval)` pauses. -/
inductive DeauthEvent
  | attempt (client : List Char)
  | pause
deriving DecidableEq

/-- Whether a deauthentication event is an injector invocation. -/
def isAttemptEvent : DeauthEvent → Bool
  | DeauthEvent.attempt _ => true
  | DeauthEvent.pause => false

/-- Loop body of `API.deauth_clients` (`airapi.py` lines 243-277).
`outcome i` classifies the injector invocation of the i-th processed
client; `lastClient` is `clients[-1]` of the full list.  Returns the
event trace and the value returned by the Python function:
`FileNotFoundError` returns `False` at once (line 270), the other error
arms clear the aggregate flag and fall through to the pause check
`if client_bssid != clients[-1]` (line 275). -/
def deauthGo (outcome : Nat → RunOutcome) (lastClient : List Char) :
    Nat → Bool → List (List Char) → List DeauthEvent × Bool
  | _, success, [] => ([], success)
  | i, success, c :: rest =>
    match outcome i with
    | RunOutcome.toolMissing => ([DeauthEvent.attempt c], false)
    | o =>
      let tail := deauthGo outcome lastClient (i + 1)
        (success && decide (o = RunOutcome.ok)) rest
      if c ≠ lastClient then
        (DeauthEvent.attempt c :: DeauthEvent.pause :: tail.1, tail.2)
      else
        (DeauthEvent.attempt c :: tail.1, tail.2)

/-- Model of `API.deauth_clients` (`airapi.py` lines 226-279): event
trace plus returned boolean.  For the empty list the Python loop body
(and with it the `clients[-1]` expression) is never executed and the
initial `success = True` is returned. -/
def deauth_clients (outcome : Nat → RunOutcome) (clients : List (List Char)) :
    List DeauthEvent × Bool :=
  match clients.getLast? with
  | none => ([], true)
  | some lastClient => deauthGo outcome lastClient 0 true clients

/-- Structural decimal renderer (most significant digit first); the fuel
argument makes the recursion structural so that concrete instances reduce
in the kernel. -/
def natCharsAux : Nat → Nat → List Char
  | 0, _ => []
  | fuel + 1, n =>
    if n = 0 then []
    else natCharsAux fuel (n / 10) ++ [Nat.digitChar (n % 10)]

/-- Decimal rendering of a natural number as Python's `str`/f-string
produces it (`f"..._{timestamp}"`). -/
def natChars (n : Nat) : List Char :=
  if n = 0 then ['0'] else natCharsAux (n + 1) n

/-- Decimal parser, left inverse of `natChars`. -/
def charsToNat (l : List Char) : Nat :=
  l.foldl (fun acc c => acc * 10 + (c.toNat - 48)) 0

/-- Capture-file prefix built by `API.get_handshake` (`airapi.py` lines
172-174): `f"handshake_{bssid.replace(':', '')}_{timestamp}"` with
`timestamp = int(time.time())` (whole seconds). -/
def handshakePrefix (bssid : List Char) (second : Nat) : List Char :=
  "handshake_".toList ++ bssid.filter (fun c => ¬ c = ':') ++ '_' :: natChars second

/-- Prefix of a capture run that starts at wall-clock time `startMs`
milliseconds: `int(time.time())` truncates to whole seconds. -/
def runPrefix (bssid : List Char) (startMs : Nat) : List Char :=
  handshakePrefix bssid (startMs / 1000)

/-- Expected capture file for a prefix: `f"..-01.cap"`
(`airapi.py` lines 201 and 214). -/
def capFileName (pre : List Char) : List Char := pre ++ "-01.cap".toList

/-- Environment of one `API.get_handshake` run, describing what the
program observes: whether `subprocess.Popen` succeeds (the capture tool
is present), the elapsed whole seconds at the top of each poll
iteration, the stderr line read in each iteration (`none` models the
empty read at EOF / no data), the configured timeout, and whether the
expected `.cap` file exists when checked. -/
structure HsEnv where
  launchOk : Bool
  elapsed : Nat → Nat
  line : Nat → Option (List Char)
  timeout : Nat
  capExists : Bool

/-- The Python exception that actually escapes `API.get_handshake` when
`Popen` raises: the handler at lines 219-222 evaluates `if proc:` while
the local `proc` was never bound, so an `UnboundLocalError` (a
`NameError`) replaces the original exception and propagates. -/
inductive PyExc
  | nameError
deriving DecidableEq

/-- Terminal observation of one `API.get_handshake` call: whether
`proc.terminate()` was invoked on the capture process, and the returned
path (or the exception that escaped). -/
structure HsOutcome where
  terminated : Bool
  result : Except PyExc (List Char)

/-- Poll loop of `API.get_handshake` (`airapi.py` lines 195-217),
iteration index `i`, structural fuel (`none` = fuel exhausted, a model
artifact only).  Each iteration: if elapsed time exceeds the timeout,
terminate and return the capture file if present else the empty string;
otherwise read a line — no line means sleep and retry, a line containing
the handshake marker means terminate and return as above. -/
def hsLoop (env : HsEnv) (pre : List Char) : Nat → Nat → Option HsOutcome
  | 0, _ => none
  | fuel + 1, i =>
    if env.timeout < env.elapsed i then
      some ⟨true, Except.ok (if env.capExists then capFileName pre else [])⟩
    else
      match env.line i with
      | none => hsLoop env pre fuel (i + 1)
      | some l =>
        if pyIn wpaMarker l then
          some ⟨true, Except.ok (if env.capExists then capFileName pre else [])⟩
        else hsLoop env pre fuel (i + 1)

/-- Model of `API.get_handshake` (`airapi.py` lines 169-222).  When the
launch fails, the `except` handler crashes on the unbound local `proc`
(see `PyExc.nameError`); no process was started, so none is terminated. -/
def get_handshake (env : HsEnv) (bssid : List Char) (startMs : Nat)
    (fuel : Nat) : Option HsOutcome :=
  if env.launchOk then hsLoop env (runPrefix bssid startMs) fuel 0
  else some ⟨false, Except.error PyExc.nameError⟩

/-- Steps of `CLI._connect` (`main.py` lines 143-184), in program
order. -/
inductive ConnectStep
  | fetchClients
  | reportNoClients
  | exitProgram
  | startCapture
  | sleepGrace (secs : Nat)
  | startDeauth
  | waitJoin
  | recoverPassword
deriving DecidableEq

/-- Control-flow trace of `CLI._connect` as a function of how many
connected clients the fetch returned: fewer than 2 shows the error and
exits (lines 145-147); otherwise the capture thread is started, the
orchestrator sleeps 5 seconds (line 161), starts the deauthentication
thread, waits for both, and runs passphrase recovery. -/
def connectSteps (numClients : Nat) : List ConnectStep :=
  if numClients < 2 then
    [ConnectStep.fetchClients, ConnectStep.reportNoClients,
     ConnectStep.exitProgram]
  else
    [ConnectStep.fetchClients, ConnectStep.startCapture,
     ConnectStep.sleepGrace 5, ConnectStep.startDeauth,
     ConnectStep.waitJoin, ConnectStep.recoverPassword]

/-- Time a step itself consumes: only the explicit `time.sleep`. -/
def stepDuration : ConnectStep → Nat
  | ConnectStep.sleepGrace s => s
  | _ => 0

/-- Timed schedule of a step list: step number `i` starts `gaps i`
time units (scheduling and execution overhead, arbitrary but
non-negative) after the previous step ended. -/
def scheduleFrom (gaps : Nat → Nat) : Nat → Nat → List ConnectStep →
    List (Nat × ConnectStep)
  | _, _, [] => []
  | i, t, s :: rest =>
    (t + gaps i, s) :: scheduleFrom gaps (i + 1) (t + gaps i + stepDuration s) rest

/-- Timed trace of one `CLI._connect` cycle started at `t0`. -/
def connectSchedule (gaps : Nat → Nat) (t0 : Nat) (numClients : Nat) :
    List (Nat × ConnectStep) :=
  scheduleFrom gaps 0 t0 (connectSteps numClients)

/-- Instant at which the handshake-capture thread is started, if the
cycle gets that far. -/
def captureStartTime (gaps : Nat → Nat) (t0 : Nat) (numClients : Nat) :
    Option Nat :=
  ((connectSchedule gaps t0 numClients).find?
    (fun p => p.2 = ConnectStep.startCapture)).map (fun p => p.1)

/-- Instant of the deauthentication task's first injector invocation:
the deauthentication thread starts at the `startDeauth` step and its
first `aireplay-ng` call happens `threadDelay ≥ 0` time units later. -/
def firstInjectionTime (gaps : Nat → Nat) (t0 : Nat) (numClients : Nat)
    (threadDelay : Nat) : Option Nat :=
  ((connectSchedule gaps t0 numClients).find?
    (fun p => p.2 = ConnectStep.startDeauth)).map (fun p => p.1 + threadDelay)

/-! ### Lemmas about the Python string model -/

theorem isPrefixOf_append_self (l t : List Char) :
    l.isPrefixOf (l ++ t) = true := by
  induction l with
  | nil => simp [List.isPrefixOf]
  | cons c cs ih => simp [List.isPrefixOf, ih]

theorem pyIn_nil_left (s : List Char) : pyIn [] s = true := by
  cases s <;> simp [pyIn, List.isPrefixOf]

theorem pyIn_of_decomp (sub a b : List Char) :
    pyIn sub (a ++ (sub ++ b)) = true := by
  induction a with
  | nil =>
    cases sub with
    | nil => simp [pyIn_nil_left]
    | cons c cs =>
      show pyIn (c :: cs) (c :: (cs ++ b)) = true
      simp [pyIn, isPrefixOf_append_self]
  | cons x xs ih => simp [pyIn, ih]

theorem pySplit_no_sep (sep : Char) (a : List Char) (h : sep ∉ a) :
    pySplit sep a = [a] := by
  induction a with
  | nil => rfl
  | cons c rest ih =>
    have hc : ¬ c = sep := fun e => h (by simp [e])
    have hr : sep ∉ rest := fun m => h (List.mem_cons_of_mem _ m)
    simp [pySplit, hc, ih hr]

theorem pySplit_append_sep (sep : Char) (a b : List Char) (h : sep ∉ a) :
    pySplit sep (a ++ sep :: b) = a :: pySplit sep b := by
  induction a with
  | nil => simp [pySplit]
  | cons c rest ih =>
    have hc : ¬ c = sep := fun e => h (by simp [e])
    have hr : sep ∉ rest := fun m => h (List.mem_cons_of_mem _ m)
    simp [pySplit, hc, ih hr]

theorem pySplit_head (sep : Char) (l : List Char) :
    ∃ ps, pySplit sep l =
      (l.takeWhile fun c => decide (¬ c = sep)) :: ps := by
  induction l with
  | nil => exact ⟨[], rfl⟩
  | cons c rest ih =>
    by_cases h : c = sep
    · subst h
      exact ⟨pySplit c rest, by simp [pySplit, List.takeWhile_cons]⟩
    · obtain ⟨ps, hps⟩ := ih
      exact ⟨ps, by simp [pySplit, h, hps, List.takeWhile_cons]⟩

theorem takeWhile_append_all (p : Char → Bool) (a b : List Char)
    (h : ∀ c ∈ a, p c = true) :
    (a ++ b).takeWhile p = a ++ b.takeWhile p := by
  induction a with
  | nil => rfl
  | cons c rest ih =>
    have hc := h c (by simp)
    simp [List.takeWhile_cons, hc, ih fun x hx => h x (by simp [hx])]

theorem find?_first_marker (pre : List (List Char)) (line : List Char)
    (rest : List (List Char))
    (hpre : ∀ l ∈ pre, pyIn keyMarker l = false)
    (hline : pyIn keyMarker line = true) :
    (pre ++ line :: rest).find? (fun l => pyIn keyMarker l) = some line := by
  induction pre with
  | nil => simpa [List.find?] using List.find?_cons_of_pos rest hline
  | cons x xs ih =>
    have hx := hpre x (by simp)
    rw [List.cons_append, List.find?_cons_of_neg _ (by simp [hx])]
    exact ih fun l hl => hpre l (by simp [hl])

theorem pySplit_joinLines (pre : List (List Char)) (t : List Char)
    (h : ∀ l ∈ pre, '\n' ∉ l) :
    pySplit '\n' ((pre.map fun l => l ++ ['\n']).flatten ++ t) =
      pre ++ pySplit '\n' t := by
  induction pre with
  | nil => simp
  | cons x xs ih =>
    have hx := h x (by simp)
    have hshape : (((x :: xs).map fun l => l ++ ['\n']).flatten ++ t)
        = x ++ '\n' :: ((xs.map fun l => l ++ ['\n']).flatten ++ t) := by
      simp
    rw [hshape, pySplit_append_sep _ _ _ hx,
      ih fun l hl => h l (by simp [hl])]
    simp

theorem keyFromLine_decomp (p q k r : List Char)
    (hp : '[' ∉ p) (hq : '[' ∉ q) (hk1 : '[' ∉ k) (hk2 : ']' ∉ k) :
    keyFromLine (p ++ keyMarker ++ q ++ '[' :: (k ++ ']' :: r)) = some k := by
  have hm : '[' ∉ keyMarker := by decide
  have ha : '[' ∉ p ++ keyMarker ++ q := by
    intro hmem
    rcases List.mem_append.1 hmem with hmem2 | hmem3
    · rcases List.mem_append.1 hmem2 with h1 | h2
      · exact hp h1
      · exact hm h2
    · exact hq hmem3
  have hassoc : p ++ keyMarker ++ q ++ '[' :: (k ++ ']' :: r)
      = (p ++ keyMarker ++ q) ++ '[' :: (k ++ ']' :: r) := by simp
  rw [keyFromLine, hassoc, pySplit_append_sep _ _ _ ha]
  obtain ⟨ps, hps⟩ := pySplit_head '[' (k ++ ']' :: r)
  have hkall : ∀ c ∈ k, (fun c => decide (¬ c = '[')) c = true := by
    intro c hc
    simp only [decide_eq_true_eq]
    intro e
    exact hk1 (e ▸ hc)
  have htk : ((k ++ ']' :: r).takeWhile fun c => decide (¬ c = '['))
      = k ++ ']' :: (r.takeWhile fun c => decide (¬ c = '[')) := by
    rw [takeWhile_append_all _ _ _ hkall]
    simp [List.takeWhile_cons]
  rw [hps, htk]
  show some ((pySplit ']'
      (k ++ ']' :: (r.takeWhile fun c => decide (¬ c = '[')))).headD
      (k ++ ']' :: (r.takeWhile fun c => decide (¬ c = '[')))) = some k
  rw [pySplit_append_sep _ _ _ hk2]
  simp

theorem keyResult_decomp (pre : List (List Char)) (p q k r tail : List Char)
    (hpre : ∀ l ∈ pre, pyIn keyMarker l = false)
    (hprenl : ∀ l ∈ pre, '\n' ∉ l)
    (hp : '[' ∉ p) (hq : '[' ∉ q) (hk1 : '[' ∉ k) (hk2 : ']' ∉ k)
    (hnl : '\n' ∉ p ++ keyMarker ++ q ++ '[' :: (k ++ ']' :: r))
    (htail : tail = [] ∨ ∃ t, tail = '\n' :: t) :
    keyResult ((pre.map fun l => l ++ ['\n']).flatten ++
      (p ++ keyMarker ++ q ++ '[' :: (k ++ ']' :: r)) ++ tail) =
      some (Except.ok k) := by
  set line := p ++ keyMarker ++ q ++ '[' :: (k ++ ']' :: r) with hlinedef
  have hlinein : pyIn keyMarker line = true := by
    have := pyIn_of_decomp keyMarker p (q ++ '[' :: (k ++ ']' :: r))
    simpa [hlinedef] using this
  have hin : pyIn keyMarker
      ((pre.map fun l => l ++ ['\n']).flatten ++ line ++ tail) = true := by
    have := pyIn_of_decomp keyMarker
      ((pre.map fun l => l ++ ['\n']).flatten ++ p)
      (q ++ '[' :: (k ++ ']' :: r) ++ tail)
    simpa [hlinedef] using this
  have hsplit : ∃ ls, pySplit '\n'
      ((pre.map fun l => l ++ ['\n']).flatten ++ line ++ tail)
      = pre ++ line :: ls := by
    rcases htail with ht | ⟨t, ht⟩
    · refine ⟨[], ?_⟩
      subst ht
      rw [List.append_nil, pySplit_joinLines _ _ hprenl, pySplit_no_sep _ _ hnl]
    · refine ⟨pySplit '\n' t, ?_⟩
      subst ht
      rw [List.append_assoc, pySplit_joinLines _ _ hprenl,
        pySplit_append_sep _ _ _ hnl]
  obtain ⟨ls, hs⟩ := hsplit
  have hfind : (pySplit '\n'
      ((pre.map fun l => l ++ ['\n']).flatten ++ line ++ tail)).find?
        (fun l => pyIn keyMarker l) = some line := by
    rw [hs]; exact find?_first_marker _ _ _ hpre hlinein
  have hkey : keyFromLine line = some k := by
    rw [hlinedef]; exact keyFromLine_decomp p q k r hp hq hk1 hk2
  rw [keyResult, if_pos (by simpa using hin), hfind]
  simp [hkey]

/-! ### Claim C2: key extraction from the found-key line -/

/-- C2 (corrected).  The recovery output analysis shared by
`parse_password` and `brute_force_password` returns the raw text between
the first `[` of the first marker line and the `]` that follows it,
without any whitespace trimming: for `KEY FOUND! [ hunter2 ]` the
returned key is `" hunter2 "` (spaces kept), not `"hunter2"`. -/
theorem C2_amended (pre : List (List Char)) (p q k r tail : List Char)
    (hpre : ∀ l ∈ pre, pyIn keyMarker l = false)
    (hprenl : ∀ l ∈ pre, '\n' ∉ l)
    (hp : '[' ∉ p) (hq : '[' ∉ q) (hk1 : '[' ∉ k) (hk2 : ']' ∉ k)
    (hnl : '\n' ∉ p ++ keyMarker ++ q ++ '[' :: (k ++ ']' :: r))
    (htail : tail = [] ∨ ∃ t, tail = '\n' :: t) :
    parse_password false ((pre.map fun l => l ++ ['\n']).flatten ++
        (p ++ keyMarker ++ q ++ '[' :: (k ++ ']' :: r)) ++ tail) =
      Except.ok k ∧
    brute_force_password false ((pre.map fun l => l ++ ['\n']).flatten ++
        (p ++ keyMarker ++ q ++ '[' :: (k ++ ']' :: r)) ++ tail) =
      Except.ok k := by
  have hk := keyResult_decomp pre p q k r tail hpre hprenl hp hq hk1 hk2 hnl htail
  constructor
  · rw [parse_password, if_neg (by simp), analyzeDictOutput, hk]
  · rw [brute_force_password, if_neg (by simp), analyzeBruteOutput, hk]

/-- Witness for C2: the spec's own example line, with the spaces inside
the brackets preserved in the result. -/
theorem C2_witness :
    parse_password false ("xx ".toList ++ keyMarker ++ " ".toList ++
        '[' :: (" hunter2 ".toList ++ ']' :: " yy".toList) ++ []) =
      Except.ok " hunter2 ".toList :=
  (C2_amended [] "xx ".toList " ".toList " hunter2 ".toList " yy".toList []
    (by simp) (by simp) (by decide) (by decide) (by decide) (by decide)
    (by decide) (Or.inl rfl)).1

/-- Counterexample for C2 as stated: on the spec's example output the
code returns the key with its surrounding spaces, not the trimmed
`hunter2`. -/
theorem C2_counterexample :
    parse_password false "KEY FOUND! [ hunter2 ]".toList =
      Except.ok " hunter2 ".toList ∧
    " hunter2 ".toList ≠ "hunter2".toList :=
  ⟨rfl, by decide⟩

/-! ### Claim C9: recovery outcome taxonomy -/

/-- C9 (corrected).  Dictionary-mode recovery distinguishes three
outcomes: timeout, outputs with the definitive not-found text and
marker-free outputs yield the empty result, while the invalid-capture
markers raise a distinct error.  Brute-force recovery, however, returns
the empty result for every output lacking the found-key marker —
including invalid-capture indications — so only dictionary mode
surfaces the invalid-capture outcome. -/
theorem C9_amended :
    (∀ out, parse_password true out = Except.ok [] ∧
      brute_force_password true out = Except.ok []) ∧
    (∀ out, pyIn keyMarker out = false → pyIn pndMarker out = true →
      parse_password false out = Except.ok []) ∧
    (∀ out, pyIn keyMarker out = false → pyIn pndMarker out = false →
      pyIn invMarkerA out = false → pyIn invMarkerB out = false →
      parse_password false out = Except.ok []) ∧
    (∀ out, pyIn keyMarker out = false → pyIn pndMarker out = false →
      (pyIn invMarkerA out = true ∨ pyIn invMarkerB out = true) →
      parse_password false out = Except.error CrackError.invalidCapture) ∧
    (∀ out, pyIn keyMarker out = false →
      brute_force_password false out = Except.ok []) := by
  refine ⟨fun out => ⟨rfl, rfl⟩, ?_, ?_, ?_, ?_⟩
  · intro out h1 h2
    simp [parse_password, analyzeDictOutput, keyResult, h1, h2]
  · intro out h1 h2 h3 h4
    simp [parse_password, analyzeDictOutput, keyResult, h1, h2, h3, h4]
  · intro out h1 h2 h3
    rcases h3 with h3 | h3 <;>
      simp [parse_password, analyzeDictOutput, keyResult, h1, h2, h3]
  · intro out h1
    simp [brute_force_password, analyzeBruteOutput, keyResult, h1]

/-- Witness for C9: the three dictionary-mode outcomes and the
brute-force behavior, each at a concrete output. -/
theorem C9_witness :
    parse_password false "Passphrase not in dictionary".toList =
      Except.ok [] ∧
    parse_password false "No networks found".toList =
      Except.error CrackError.invalidCapture ∧
    parse_password true "irrelevant".toList = Except.ok [] ∧
    brute_force_password false "nothing here".toList = Except.ok [] :=
  ⟨C9_amended.2.1 _ (by decide) (by decide),
   C9_amended.2.2.2.1 _ (by decide) (by decide) (Or.inl (by decide)),
   (C9_amended.1 _).1,
   C9_amended.2.2.2.2 _ (by decide)⟩

/-- Counterexample for C9 as stated: an output signalling an invalid
capture makes brute-force recovery return the empty not-found result,
not a distinct invalid-capture error (dictionary mode does raise it). -/
theorem C9_counterexample :
    brute_force_password false "No networks found".toList = Except.ok [] ∧
    parse_password false "No networks found".toList =
      Except.error CrackError.invalidCapture :=
  ⟨rfl, rfl⟩

/-! ### Lemmas about the deauthentication loop -/

theorem allOk_shift (outcome : Nat → RunOutcome) (start n : Nat) :
    ((outcome start = RunOutcome.ok) ∧
      ∀ i, i < n → outcome (start + 1 + i) = RunOutcome.ok) ↔
    ∀ i, i < n + 1 → outcome (start + i) = RunOutcome.ok := by
  constructor
  · rintro ⟨h0, hs⟩ i hi
    cases i with
    | zero => simpa using h0
    | succ j =>
      have := hs j (by omega)
      rwa [show start + 1 + j = start + (j + 1) by omega] at this
  · intro h
    refine ⟨by simpa using h 0 (by omega), fun i hi => ?_⟩
    have := h (i + 1) (by omega)
    rwa [show start + (i + 1) = start + 1 + i by omega] at this

theorem deauthGo_noFatal (outcome : Nat → RunOutcome) (lastC : List Char) :
    ∀ (l : List (List Char)) (start : Nat) (success : Bool),
    (∀ i, i < l.length → outcome (start + i) ≠ RunOutcome.toolMissing) →
    (deauthGo outcome lastC start success l).1.countP isAttemptEvent
        = l.length ∧
    (deauthGo outcome lastC start success l).2 =
      (success &&
        decide (∀ i, i < l.length → outcome (start + i) = RunOutcome.ok)) := by
  intro l
  induction l with
  | nil =>
    intro start success h
    simp [deauthGo]
  | cons c rest ih =>
    intro start success h
    have h0 : outcome start ≠ RunOutcome.toolMissing := by
      simpa using h 0 (by simp)
    have hshift : ∀ i, i < rest.length →
        outcome (start + 1 + i) ≠ RunOutcome.toolMissing := by
      intro i hi
      have := h (i + 1) (by simpa using Nat.succ_lt_succ hi)
      rwa [show start + (i + 1) = start + 1 + i by omega] at this
    have hokiff : outcome start = RunOutcome.ok →
        ((∀ i, i < rest.length → outcome (start + 1 + i) = RunOutcome.ok) ↔
          ∀ i, i < rest.length + 1 → outcome (start + i) = RunOutcome.ok) :=
      fun hok =>
        ⟨fun hs => (allOk_shift outcome start rest.length).1 ⟨hok, hs⟩,
         fun hf => ((allOk_shift outcome start rest.length).2 hf).2⟩
    have hnotall : outcome start ≠ RunOutcome.ok →
        ¬(∀ i, i < rest.length + 1 → outcome (start + i) = RunOutcome.ok) := by
      intro hne hall
      exact hne (by simpa using hall 0 (by omega))
    cases ho : outcome start with
    | toolMissing => exact absurd ho h0
    | ok =>
      obtain ⟨ih1, ih2⟩ := ih (start + 1) success hshift
      by_cases hc : c = lastC <;>
        simp [deauthGo, ho, hc, List.countP_cons, isAttemptEvent, ih1, ih2,
          decide_eq_decide.2 (hokiff ho)]
    | nonzeroExit =>
      obtain ⟨ih1, ih2⟩ := ih (start + 1) false hshift
      by_cases hc : c = lastC <;>
        simp [deauthGo, ho, hc, List.countP_cons, isAttemptEvent, ih1, ih2,
          hnotall (by simp [ho])]
    | timedOut =>
      obtain ⟨ih1, ih2⟩ := ih (start + 1) false hshift
      by_cases hc : c = lastC <;>
        simp [deauthGo, ho, hc, List.countP_cons, isAttemptEvent, ih1, ih2,
          hnotall (by simp [ho])]
    | otherError =>
      obtain ⟨ih1, ih2⟩ := ih (start + 1) false hshift
      by_cases hc : c = lastC <;>
        simp [deauthGo, ho, hc, List.countP_cons, isAttemptEvent, ih1, ih2,
          hnotall (by simp [ho])]

theorem deauthGo_cons_nonfatal (outcome : Nat → RunOutcome)
    (lastC c : List Char) (rest : List (List Char)) (start : Nat)
    (success : Bool) (h : outcome start ≠ RunOutcome.toolMissing) :
    deauthGo outcome lastC start success (c :: rest) =
      (if c ≠ lastC then
        (DeauthEvent.attempt c :: DeauthEvent.pause ::
          (deauthGo outcome lastC (start + 1)
            (success && decide (outcome start = RunOutcome.ok)) rest).1,
         (deauthGo outcome lastC (start + 1)
            (success && decide (outcome start = RunOutcome.ok)) rest).2)
      else
        (DeauthEvent.attempt c ::
          (deauthGo outcome lastC (start + 1)
            (success && decide (outcome start = RunOutcome.ok)) rest).1,
         (deauthGo outcome lastC (start + 1)
            (success && decide (outcome start = RunOutcome.ok)) rest).2)) := by
  cases ho : outcome start with
  | toolMissing => exact absurd ho h
  | ok => simp [deauthGo, ho]
  | nonzeroExit => simp [deauthGo, ho]
  | timedOut => simp [deauthGo, ho]
  | otherError => simp [deauthGo, ho]

theorem deauthGo_cons_fatal (outcome : Nat → RunOutcome)
    (lastC c : List Char) (rest : List (List Char)) (start : Nat)
    (success : Bool) (h : outcome start = RunOutcome.toolMissing) :
    deauthGo outcome lastC start success (c :: rest) =
      ([DeauthEvent.attempt c], false) := by
  simp [deauthGo, h]

theorem countP_attempt_cons (c : List Char) (T : List DeauthEvent) :
    List.countP isAttemptEvent (DeauthEvent.attempt c :: T)
      = List.countP isAttemptEvent T + 1 := by
  simp [List.countP_cons, isAttemptEvent]

theorem countP_pause_cons (T : List DeauthEvent) :
    List.countP isAttemptEvent (DeauthEvent.pause :: T)
      = List.countP isAttemptEvent T := by
  simp [List.countP_cons, isAttemptEvent]

theorem deauthGo_fatal (outcome : Nat → RunOutcome) (lastC : List Char) :
    ∀ (l : List (List Char)) (start : Nat) (success : Bool) (k : Nat)
      (hk : k < l.length),
    (∀ i, i < k → outcome (start + i) ≠ RunOutcome.toolMissing) →
    outcome (start + k) = RunOutcome.toolMissing →
    (deauthGo outcome lastC start success l).2 = false ∧
    (deauthGo outcome lastC start success l).1.countP isAttemptEvent
        = k + 1 ∧
    (deauthGo outcome lastC start success l).1.getLast? =
      some (DeauthEvent.attempt (l.get ⟨k, hk⟩)) := by
  intro l
  induction l with
  | nil =>
    intro start success k hk
    exact absurd hk (by simp)
  | cons c rest ih =>
    intro start success k hk hpre hfatal
    cases k with
    | zero =>
      have ho : outcome start = RunOutcome.toolMissing := by
        simpa using hfatal
      rw [deauthGo_cons_fatal outcome lastC c rest start success ho]
      simp [List.countP_cons, isAttemptEvent]
    | succ k2 =>
      have h0 : outcome start ≠ RunOutcome.toolMissing := by
        simpa using hpre 0 (by omega)
      have hk2 : k2 < rest.length := by simpa using hk
      have hpre2 : ∀ i, i < k2 →
          outcome (start + 1 + i) ≠ RunOutcome.toolMissing := by
        intro i hi
        have := hpre (i + 1) (by omega)
        rwa [show start + (i + 1) = start + 1 + i by omega] at this
      have hfatal2 : outcome (start + 1 + k2) = RunOutcome.toolMissing := by
        rwa [show start + (k2 + 1) = start + 1 + k2 by omega] at hfatal
      have hget : (c :: rest).get ⟨k2 + 1, hk⟩ = rest.get ⟨k2, hk2⟩ := rfl
      rw [deauthGo_cons_nonfatal outcome lastC c rest start success h0, hget]
      obtain ⟨ih1, ih2, ih3⟩ := ih (start + 1)
        (success && decide (outcome start = RunOutcome.ok)) k2 hk2 hpre2 hfatal2
      have hne : (deauthGo outcome lastC (start + 1)
          (success && decide (outcome start = RunOutcome.ok)) rest).1 ≠ [] := by
        intro hemp
        rw [hemp] at ih2
        simp at ih2
      cases htl : (deauthGo outcome lastC (start + 1)
          (success && decide (outcome start = RunOutcome.ok)) rest).1 with
      | nil => exact absurd htl hne
      | cons e es =>
        rw [htl] at ih2 ih3
        by_cases hc : c = lastC
        · rw [if_neg (fun hne2 => hne2 hc)]
          refine ⟨ih1, ?_, ?_⟩
          · show List.countP isAttemptEvent
                (DeauthEvent.attempt c :: e :: es) = k2 + 1 + 1
            rw [countP_attempt_cons, ih2]
          · show (DeauthEvent.attempt c :: e :: es).getLast? =
                some (DeauthEvent.attempt (rest.get ⟨k2, hk2⟩))
            rw [List.getLast?_cons_cons]
            exact ih3
        · rw [if_pos hc]
          refine ⟨ih1, ?_, ?_⟩
          · show List.countP isAttemptEvent
                (DeauthEvent.attempt c :: DeauthEvent.pause :: e :: es)
                = k2 + 1 + 1
            rw [countP_attempt_cons, countP_pause_cons, ih2]
          · show (DeauthEvent.attempt c :: DeauthEvent.pause ::
                e :: es).getLast? =
                some (DeauthEvent.attempt (rest.get ⟨k2, hk2⟩))
            rw [List.getLast?_cons_cons, List.getLast?_cons_cons]
            exact ih3

theorem deauthGo_intersperse (outcome : Nat → RunOutcome) (lastC : List Char)
    (hnofatal : ∀ i, outcome i ≠ RunOutcome.toolMissing) :
    ∀ (l : List (List Char)) (start : Nat) (success : Bool),
    l.getLast? = some lastC →
    (∀ c ∈ l.dropLast, c ≠ lastC) →
    (deauthGo outcome lastC start success l).1 =
      List.intersperse DeauthEvent.pause (l.map DeauthEvent.attempt) := by
  intro l
  induction l with
  | nil =>
    intro start success hl
    simp at hl
  | cons c rest ih =>
    intro start success hl hdrop
    cases rest with
    | nil =>
      have hcl : c = lastC := by simpa using hl
      rw [deauthGo_cons_nonfatal outcome lastC c [] start success
        (hnofatal start), if_neg (fun hne2 => hne2 hcl)]
      show DeauthEvent.attempt c ::
          (deauthGo outcome lastC (start + 1)
            (success && decide (outcome start = RunOutcome.ok)) []).1
          = List.intersperse DeauthEvent.pause [DeauthEvent.attempt c]
      rfl
    | cons c2 rest2 =>
      have hc : c ≠ lastC := hdrop c (by simp [List.dropLast])
      have hl2 : (c2 :: rest2).getLast? = some lastC := by
        rwa [List.getLast?_cons_cons] at hl
      have hdrop2 : ∀ x ∈ (c2 :: rest2).dropLast, x ≠ lastC := by
        intro x hx
        exact hdrop x (by simp [List.dropLast, hx])
      have hstep : List.intersperse DeauthEvent.pause
          ((c :: c2 :: rest2).map DeauthEvent.attempt)
          = DeauthEvent.attempt c :: DeauthEvent.pause ::
            List.intersperse DeauthEvent.pause
              ((c2 :: rest2).map DeauthEvent.attempt) := rfl
      rw [deauthGo_cons_nonfatal outcome lastC c (c2 :: rest2) start success
        (hnofatal start), if_pos hc, hstep]
      show DeauthEvent.attempt c :: DeauthEvent.pause ::
          (deauthGo outcome lastC (start + 1)
            (success && decide (outcome start = RunOutcome.ok))
            (c2 :: rest2)).1
          = DeauthEvent.attempt c :: DeauthEvent.pause ::
            List.intersperse DeauthEvent.pause
              ((c2 :: rest2).map DeauthEvent.attempt)
      rw [ih (start + 1)
        (success && decide (outcome start = RunOutcome.ok)) hl2 hdrop2]

/-! ### Claims C1, C8, C10: the deauthentication loop -/

/-- C1 (corrected).  The pause guard compares each client's value with
`clients[-1]`, so the pattern "one pause between consecutive attempts,
none after the last" holds only when the last client's MAC does not also
appear earlier in the list; under that proviso (and no fatal
missing-injector abort) the event trace is exactly the attempts with one
pause interleaved between consecutive ones — for `[A, B, C]` with
distinct MACs, exactly two pauses. -/
theorem C1_amended (outcome : Nat → RunOutcome) (clients : List (List Char))
    (lastC : List Char)
    (hlast : clients.getLast? = some lastC)
    (hnodup : ∀ c ∈ clients.dropLast, c ≠ lastC)
    (hnofatal : ∀ i, outcome i ≠ RunOutcome.toolMissing) :
    (deauth_clients outcome clients).1 =
      List.intersperse DeauthEvent.pause (clients.map DeauthEvent.attempt) := by
  have hrw : deauth_clients outcome clients
      = deauthGo outcome lastC 0 true clients := by
    rw [deauth_clients, hlast]
  rw [hrw]
  exact deauthGo_intersperse outcome lastC hnofatal clients 0 true hlast hnodup

/-- Witness for C1: three distinct clients, all injections succeeding —
attempt, pause, attempt, pause, attempt. -/
theorem C1_witness :
    (deauth_clients (fun _ => RunOutcome.ok)
        ["AA".toList, "BB".toList, "CC".toList]).1 =
      List.intersperse DeauthEvent.pause
        (["AA".toList, "BB".toList, "CC".toList].map DeauthEvent.attempt) :=
  C1_amended (fun _ => RunOutcome.ok) _ "CC".toList (by decide) (by decide)
    (fun i => by simp)

/-- Counterexample for C1 as stated: for the two-element list `[A, A]`
(the last client also appears earlier) the code takes no pause at all
between the two attempts, where the claim requires exactly one. -/
theorem C1_counterexample :
    (deauth_clients (fun _ => RunOutcome.ok) ["A".toList, "A".toList]).1 =
      [DeauthEvent.attempt "A".toList, DeauthEvent.attempt "A".toList] ∧
    (deauth_clients (fun _ => RunOutcome.ok) ["A".toList, "A".toList]).1 ≠
      List.intersperse DeauthEvent.pause
        (["A".toList, "A".toList].map DeauthEvent.attempt) := by
  constructor
  · rfl
  · decide

/-- C8 (confirmed).  If the injector executable goes missing at the k-th
client, the loop returns `false` at once: exactly `k + 1` injector
invocations happen, the trace ends on that very attempt (no further
pause), and no later client is attempted.  Without a missing-injector
event every client is attempted, and the aggregate flag is true exactly
when every invocation exited cleanly — non-zero exits and timeouts only
clear the flag. -/
theorem C8_theorem (outcome : Nat → RunOutcome)
    (clients : List (List Char)) :
    (∀ k (hk : k < clients.length),
      (∀ i, i < k → outcome i ≠ RunOutcome.toolMissing) →
      outcome k = RunOutcome.toolMissing →
      (deauth_clients outcome clients).2 = false ∧
      (deauth_clients outcome clients).1.countP isAttemptEvent = k + 1 ∧
      (deauth_clients outcome clients).1.getLast? =
        some (DeauthEvent.attempt (clients.get ⟨k, hk⟩))) ∧
    ((∀ i, i < clients.length → outcome i ≠ RunOutcome.toolMissing) →
      (deauth_clients outcome clients).1.countP isAttemptEvent
          = clients.length ∧
      ((deauth_clients outcome clients).2 = true ↔
        ∀ i, i < clients.length → outcome i = RunOutcome.ok)) := by
  cases hl : clients.getLast? with
  | none =>
    have hnil : clients = [] := List.getLast?_eq_none_iff.1 hl
    subst hnil
    refine ⟨fun k hk => absurd hk (by simp), fun _ => ?_⟩
    simp [deauth_clients]
  | some lastC =>
    have hrw : deauth_clients outcome clients
        = deauthGo outcome lastC 0 true clients := by
      rw [deauth_clients, hl]
    constructor
    · intro k hk hpre hfatal
      rw [hrw]
      exact deauthGo_fatal outcome lastC clients 0 true k hk
        (by simpa using hpre) (by simpa using hfatal)
    · intro hnf
      rw [hrw]
      obtain ⟨h1, h2⟩ := deauthGo_noFatal outcome lastC clients 0 true
        (by simpa using hnf)
      refine ⟨h1, ?_⟩
      rw [h2]
      simp

/-- Witness for C8: three clients, the injector disappearing at the
second one — two attempts, immediate `false`, trace ending on the
second attempt. -/
theorem C8_witness :
    (deauth_clients
        (fun i => if i = 1 then RunOutcome.toolMissing
          else RunOutcome.nonzeroExit)
        ["AA".toList, "BB".toList, "CC".toList]).2 = false ∧
    (deauth_clients
        (fun i => if i = 1 then RunOutcome.toolMissing
          else RunOutcome.nonzeroExit)
        ["AA".toList, "BB".toList, "CC".toList]).1.countP isAttemptEvent
        = 2 ∧
    (deauth_clients
        (fun i => if i = 1 then RunOutcome.toolMissing
          else RunOutcome.nonzeroExit)
        ["AA".toList, "BB".toList, "CC".toList]).1.getLast? =
      some (DeauthEvent.attempt
        (["AA".toList, "BB".toList, "CC".toList].get ⟨1, by decide⟩)) :=
  (C8_theorem
    (fun i => if i = 1 then RunOutcome.toolMissing
      else RunOutcome.nonzeroExit)
    ["AA".toList, "BB".toList, "CC".toList]).1 1 (by decide)
    (by decide) (by decide)

/-- C10 (confirmed).  On the empty client list the deauthentication task
returns aggregate success with no injector invocation and no pause. -/
theorem C10_theorem (outcome : Nat → RunOutcome) :
    deauth_clients outcome [] = ([], true) := rfl

/-! ### Claims C3, C4, C5: the handshake-capture task -/

/-- Environment of a run in which the capture tool is absent, so
`subprocess.Popen` raises `FileNotFoundError`. -/
def hsEnvNoTool : HsEnv :=
  ⟨false, fun _ => 0, fun _ => none, 120, false⟩

/-- C3 (code bug).  When process creation fails, `get_handshake` does
not return the empty failure value the spec describes: the `except`
handler evaluates `if proc:` with the local `proc` never bound, so an
`UnboundLocalError` escapes the call instead. -/
theorem C3_code_bug :
    get_handshake hsEnvNoTool "AA:BB:CC:DD:EE:FF".toList 1700000000000 5 =
      some ⟨false, Except.error PyExc.nameError⟩ := rfl

theorem hsLoop_timeout (env : HsEnv) (pre : List Char) :
    ∀ (i start fuel : Nat), i < fuel →
    (∀ j, j < i → env.elapsed (start + j) ≤ env.timeout ∧
      ((env.line (start + j)).all fun l => ! pyIn wpaMarker l) = true) →
    env.timeout < env.elapsed (start + i) →
    hsLoop env pre fuel start =
      some ⟨true, Except.ok
        (if env.capExists then capFileName pre else [])⟩ := by
  intro i
  induction i with
  | zero =>
    intro start fuel hf hq ht
    cases fuel with
    | zero => omega
    | succ f =>
      rw [hsLoop, if_pos (by simpa using ht)]
  | succ i2 ih =>
    intro start fuel hf hq ht
    cases fuel with
    | zero => omega
    | succ f =>
      have h0 := hq 0 (by omega)
      have hnot : ¬ env.timeout < env.elapsed start := by
        have := h0.1
        simp only [Nat.add_zero] at this
        omega
      rw [hsLoop, if_neg hnot]
      have hq2 : ∀ j, j < i2 → env.elapsed (start + 1 + j) ≤ env.timeout ∧
          ((env.line (start + 1 + j)).all fun l => ! pyIn wpaMarker l)
            = true := by
        intro j hj
        have := hq (j + 1) (by omega)
        rwa [show start + (j + 1) = start + 1 + j by omega] at this
      have ht2 : env.timeout < env.elapsed (start + 1 + i2) := by
        rwa [show start + (i2 + 1) = start + 1 + i2 by omega] at ht
      cases hl : env.line start with
      | none => exact ih (start + 1) f (by omega) hq2 ht2
      | some l =>
        have hnm : pyIn wpaMarker l = false := by
          have := h0.2
          simp only [Nat.add_zero, hl, Option.all_some] at this
          simpa using this
        show (if pyIn wpaMarker l = true then
            some (⟨true, Except.ok
              (if env.capExists then capFileName pre else [])⟩ : HsOutcome)
          else hsLoop env pre f (start + 1)) =
          some ⟨true, Except.ok
            (if env.capExists then capFileName pre else [])⟩
        rw [hnm, if_neg (by simp)]
        exact ih (start + 1) f (by omega) hq2 ht2

/-- C4 (confirmed).  If no line read before the deadline contains the
handshake marker and the elapsed time then exceeds the timeout, the task
terminates the capture process and returns the expected capture file
path (prefix + `-01.cap`) when that file exists, and the empty result
when it does not — always a normal return, never an exception. -/
theorem C4_theorem (env : HsEnv) (bssid : List Char)
    (startMs fuel i : Nat)
    (hlaunch : env.launchOk = true)
    (hfuel : i < fuel)
    (hquiet : ∀ j, j < i → env.elapsed j ≤ env.timeout ∧
      ((env.line j).all fun l => ! pyIn wpaMarker l) = true)
    (htime : env.timeout < env.elapsed i) :
    get_handshake env bssid startMs fuel =
      some ⟨true, Except.ok
        (if env.capExists then capFileName (runPrefix bssid startMs)
          else [])⟩ := by
  rw [get_handshake, if_pos hlaunch]
  exact hsLoop_timeout env (runPrefix bssid startMs) i 0 fuel hfuel
    (by simpa using hquiet) (by simpa using htime)

/-- Witness for C4: a silent stream, timeout 2 exceeded at the fourth
poll, capture file present. -/
theorem C4_witness :
    get_handshake ⟨true, fun t => t, fun _ => none, 2, true⟩
        "AA:BB".toList 1000 4 =
      some ⟨true, Except.ok
        (if (⟨true, fun t => t, fun _ => none, 2, true⟩ : HsEnv).capExists
          then capFileName (runPrefix "AA:BB".toList 1000) else [])⟩ :=
  C4_theorem ⟨true, fun t => t, fun _ => none, 2, true⟩ "AA:BB".toList
    1000 4 3 rfl (by decide) (by decide) (by decide)

/-- C5 counterexample: two distinct runs against the same BSSID started
800 ms apart inside the same wall-clock second produce the same
capture-file prefix — repeated runs can collide. -/
theorem C5_counterexample :
    (1700000000100 : Nat) ≠ 1700000000900 ∧
    runPrefix "AA:BB:CC:DD:EE:FF".toList 1700000000100 =
      runPrefix "AA:BB:CC:DD:EE:FF".toList 1700000000900 := by
  constructor
  · decide
  · rfl

theorem foldl_natCharsAux (fuel : Nat) :
    ∀ (n acc : Nat), n ≤ fuel →
    List.foldl (fun a c => a * 10 + (c.toNat - 48)) acc
        (natCharsAux fuel n) =
      acc * 10 ^ (natCharsAux fuel n).length + n := by
  induction fuel with
  | zero =>
    intro n acc h
    have hn : n = 0 := by omega
    subst hn
    simp [natCharsAux]
  | succ f ih =>
    intro n acc h
    by_cases hn : n = 0
    · subst hn
      simp [natCharsAux]
    · have hd10 : ∀ d, d < 10 → (Nat.digitChar d).toNat - 48 = d := by decide
      have hdiv : n / 10 ≤ f := by omega
      rw [natCharsAux, if_neg hn, List.foldl_append, ih (n / 10) acc hdiv]
      simp only [List.length_append, List.length_cons, List.length_nil]
      have hmod : (Nat.digitChar (n % 10)).toNat - 48 = n % 10 :=
        hd10 (n % 10) (Nat.mod_lt _ (by omega))
      have hdm := Nat.div_add_mod n 10
      simp only [List.foldl_cons, List.foldl_nil, hmod]
      rw [pow_succ]
      have hx : acc * (10 ^ (natCharsAux f (n / 10)).length * 10)
          = acc * 10 ^ (natCharsAux f (n / 10)).length * 10 := by ring
      rw [hx]
      omega

theorem charsToNat_natChars (n : Nat) : charsToNat (natChars n) = n := by
  rw [charsToNat, natChars]
  by_cases h : n = 0
  · subst h
    simp
  · rw [if_neg h, foldl_natCharsAux (n + 1) n 0 (by omega)]
    simp

/-- C5 (corrected).  The capture-file prefix is keyed by the
colon-stripped BSSID and the whole-second timestamp only: for a fixed
BSSID, two runs starting in different wall-clock seconds get distinct
prefixes, but two runs within the same second collide (see the
counterexample). -/
theorem C5_amended (bssid : List Char) (ms1 ms2 : Nat)
    (h : ms1 / 1000 ≠ ms2 / 1000) :
    runPrefix bssid ms1 ≠ runPrefix bssid ms2 := by
  intro he
  apply h
  rw [runPrefix, runPrefix, handshakePrefix, handshakePrefix] at he
  have h2 : '_' :: natChars (ms1 / 1000) = '_' :: natChars (ms2 / 1000) := by
    rw [List.append_assoc, List.append_assoc] at he
    exact List.append_cancel_left (List.append_cancel_left he)
  have h3 : natChars (ms1 / 1000) = natChars (ms2 / 1000) :=
    List.tail_eq_of_cons_eq h2
  have := congrArg charsToNat h3
  rwa [charsToNat_natChars, charsToNat_natChars] at this

/-- Witness for C5: runs one full second apart give different prefixes. -/
theorem C5_witness :
    (1000 : Nat) / 1000 ≠ 2500 / 1000 ∧
    runPrefix "AA:BB".toList 1000 ≠ runPrefix "AA:BB".toList 2500 :=
  ⟨by decide, C5_amended "AA:BB".toList 1000 2500 (by decide)⟩

/-! ### Claims C6, C7: the connect-cycle orchestrator -/

/-- C6 (confirmed).  A connect request first fetches the connected
clients, and with fewer than 2 clients it reports the no-clients failure
and aborts without ever starting the capture or deauthentication
tasks. -/
theorem C6_theorem (numClients : Nat) (h : numClients < 2) :
    (connectSteps numClients).head? = some ConnectStep.fetchClients ∧
    ConnectStep.reportNoClients ∈ connectSteps numClients ∧
    ConnectStep.startCapture ∉ connectSteps numClients ∧
    ConnectStep.startDeauth ∉ connectSteps numClients := by
  simp [connectSteps, h]

/-- Witness for C6: one connected client. -/
theorem C6_witness :
    (connectSteps 1).head? = some ConnectStep.fetchClients ∧
    ConnectStep.reportNoClients ∈ connectSteps 1 ∧
    ConnectStep.startCapture ∉ connectSteps 1 ∧
    ConnectStep.startDeauth ∉ connectSteps 1 :=
  C6_theorem 1 (by decide)

/-- C7 (confirmed).  In a cycle that proceeds (at least 2 clients), the
deauthentication task's first injector invocation happens no earlier
than 5 seconds — the grace period slept between the two thread starts —
after the handshake-capture thread was started, whatever the scheduling
overheads and the deauthentication thread's startup delay are. -/
theorem C7_theorem (gaps : Nat → Nat) (t0 numClients threadDelay : Nat)
    (h : 2 ≤ numClients) :
    ∀ tc ti, captureStartTime gaps t0 numClients = some tc →
      firstInjectionTime gaps t0 numClients threadDelay = some ti →
      tc + 5 ≤ ti := by
  intro tc ti hc hi
  have h2 : ¬ numClients < 2 := by omega
  simp only [captureStartTime, connectSchedule, connectSteps, if_neg h2,
    scheduleFrom, stepDuration, List.find?, Option.map] at hc
  simp only [firstInjectionTime, connectSchedule, connectSteps, if_neg h2,
    scheduleFrom, stepDuration, List.find?, Option.map] at hi
  simp at hc hi
  omega

/-- Witness for C7: zero overheads — the first injection is exactly at
the end of the 5-second grace sleep. -/
theorem C7_witness : (0 : Nat) + 5 ≤ 5 :=
  C7_theorem (fun _ => 0) 0 2 0 (by decide) 0 5 rfl rfl

end WifePen